import Mathlib

/-!
# Verification of the RBAC authorization-decision subsystem

Shallow embedding of the two Go source files:
* `kubernetes` (permissions.go): `GetUserPermissions` (the role resolver),
  `HasPermission` (the pure evaluator) and `FilterResources`.
* `business` (the caching layer): `CheckUserPermissions` (live checker) and
  the `CacheUserPermissions` / `GetUserPermissions` / `ClearUserPermissions`
  cache operations.

Go maps with string keys are embedded as association lists with at most one
entry per key (`insertA` replaces in place), observed only through `lookupA`.
Go slices are `List`s.  Fallible collaborator calls (`ClusterRoleBindings
().List`, `ClusterRoles().Get`, `GetSelfSubjectAccessReview`) are passed in
as `Except`-valued data / functions.  Time is in seconds (`Nat`); the Go
`time.Since(t) > 5*time.Minute` becomes `now - lastChecked > 5*60`.
-/

set_option maxHeartbeats 1000000

deriving instance DecidableEq for Except

namespace Spec2Proof

/-- Lookup in an association map (Go `m[k]` with `ok` flag as `Option`). -/
def lookupA {α : Type} : List (String × α) → String → Option α
  | [], _ => none
  | (k', v) :: rest, k => if k' == k then some v else lookupA rest k

/-- Map update (Go `m[k] = v`): replaces the entry for `k`, or appends one. -/
def insertA {α : Type} : List (String × α) → String → α → List (String × α)
  | [], k, v => [(k, v)]
  | (k', v') :: rest, k, v =>
    if k' == k then (k, v) :: rest else (k', v') :: insertA rest k v

/-- Map removal (Go `delete(m, k)`). -/
def eraseA {α : Type} (m : List (String × α)) (k : String) : List (String × α) :=
  m.filter (fun kv => !(kv.1 == k))

/-- First-of (`a` if present, else `b`); used to state lookup laws. -/
def oor {α : Type} (a b : Option α) : Option α :=
  match a with
  | some v => some v
  | none => b

namespace kubernetes

/-- rbacv1.PolicyRule: the (apiGroups, resources, verbs) triple of a rule. -/
structure PolicyRule where
  apiGroups : List String
  resources : List String
  verbs : List String
deriving DecidableEq

/-- rbacv1.ClusterRole, reduced to the `Rules` field the code reads. -/
structure ClusterRole where
  rules : List PolicyRule
deriving DecidableEq

/-- rbacv1.Subject: `Kind` and `Name`. -/
structure Subject where
  kind : String
  name : String
deriving DecidableEq

/-- rbacv1.RoleRef, reduced to the `Name` field the code reads. -/
structure RoleRef where
  name : String
deriving DecidableEq

/-- rbacv1.ClusterRoleBinding: `Subjects` and `RoleRef`. -/
structure ClusterRoleBinding where
  subjects : List Subject
  roleRef : RoleRef
deriving DecidableEq

/-- `UserPermissions` (permissions.go lines 12-17): the two maps. -/
structure UserPermissions where
  Resources : List (String × List String)
  APIGroups : List (String × List String)
deriving DecidableEq

/-- The single error kind: any collaborator failure, wrapped with context. -/
structure AuthorityError where
  message : String
deriving DecidableEq

/-- The APIGroups loop of one rule (permissions.go lines 45-50): wildcard
group is relabelled `"core"`, then the rule's resources are appended. -/
def processAPIGroups (m : List (String × List String)) (rule : PolicyRule) :
    List (String × List String) :=
  rule.apiGroups.foldl
    (fun m apiGroup =>
      let apiGroup := if apiGroup == "*" then "core" else apiGroup
      insertA m apiGroup ((lookupA m apiGroup).getD [] ++ rule.resources))
    m

/-- The Resources loop of one rule (permissions.go lines 53-60): each
resource's verb list is overwritten by the rule's verbs. -/
def processResources (m : List (String × List String)) (rule : PolicyRule) :
    List (String × List String) :=
  rule.resources.foldl
    (fun m resource =>
      if resource == "*" then insertA m "*" rule.verbs
      else insertA m resource rule.verbs)
    m

/-- One rule's effect on the snapshot (permissions.go lines 43-61). -/
def processRule (p : UserPermissions) (rule : PolicyRule) : UserPermissions :=
  { Resources := processResources p.Resources rule,
    APIGroups := processAPIGroups p.APIGroups rule }

/-- One subject of a binding (permissions.go lines 34-62): on a match, fetch
the referenced role and fold its rules; a fetch failure aborts. -/
def processSubject (getRole : String → Except String ClusterRole)
    (username roleName : String) (p : UserPermissions) (s : Subject) :
    Except AuthorityError UserPermissions :=
  if s.kind == "User" && s.name == username then
    match getRole roleName with
    | .error e =>
      .error ⟨"failed to get ClusterRole " ++ roleName ++ ": " ++ e⟩
    | .ok cr => .ok (cr.rules.foldl processRule p)
  else
    .ok p

/-- One binding: fold its subjects (permissions.go lines 33-64). -/
def processBinding (getRole : String → Except String ClusterRole)
    (username : String) (p : UserPermissions) (crb : ClusterRoleBinding) :
    Except AuthorityError UserPermissions :=
  crb.subjects.foldlM (processSubject getRole username crb.roleRef.name) p

/-- `GetUserPermissions` (permissions.go lines 20-67).  `listBindings` is the
result of the ClusterRoleBinding listing; `getRole` the ClusterRole getter. -/
def GetUserPermissions (listBindings : Except String (List ClusterRoleBinding))
    (getRole : String → Except String ClusterRole) (username : String) :
    Except AuthorityError UserPermissions :=
  match listBindings with
  | .error e => .error ⟨"failed to list ClusterRoleBindings: " ++ e⟩
  | .ok crbs =>
    crbs.foldlM (processBinding getRole username)
      { Resources := [], APIGroups := [] }

/-- The verb test of `HasPermission`'s loops: `v == "*" || v == verb`. -/
def verbMatches (verb v : String) : Bool :=
  v == "*" || v == verb

/-- Step 1 of `HasPermission` (permissions.go lines 72-78): the global
wildcard entry `Resources["*"]`. -/
def wildcardGrant (p : UserPermissions) (verb : String) : Bool :=
  match lookupA p.Resources "*" with
  | some verbs => verbs.any (verbMatches verb)
  | none => false

/-- The apiGroup normalization of permissions.go lines 85-87. -/
def normalizeGroup (apiGroup : String) : String :=
  if apiGroup == "core" then "" else apiGroup

/-- The API-group cross-check of permissions.go lines 85-94. -/
def groupAllows (p : UserPermissions) (apiGroup resource : String) : Bool :=
  match lookupA p.APIGroups (normalizeGroup apiGroup) with
  | some allowedResources =>
    allowedResources.any (fun allowedResource =>
      allowedResource == "*" || allowedResource == resource)
  | none => false

/-- `HasPermission` (permissions.go lines 70-100). -/
def HasPermission (p : UserPermissions) (apiGroup resource verb : String) :
    Bool :=
  if wildcardGrant p verb then true
  else
    match lookupA p.Resources resource with
    | some verbs =>
      verbs.any (fun v => verbMatches verb v && groupAllows p apiGroup resource)
    | none => false

/-- `FilterResources` (permissions.go lines 103-116). -/
def FilterResources {α : Type} (p : UserPermissions)
    (apiGroup resourceType : String) (resources : List α) : List α :=
  if !(HasPermission p apiGroup resourceType "list") then []
  else resources.foldl (fun filtered resource => filtered ++ [resource]) []

/-- The sequence of `(key, verbs)` overwrites of the `Resources` map made by
one rule: every listed resource (the wildcard included, it is just the key
`"*"`) is overwritten with the rule's verbs, in list order. -/
def ruleResourceWrites (rule : PolicyRule) : List (String × List String) :=
  rule.resources.map (fun resource => (resource, rule.verbs))

/-- The `Resources` overwrites made by processing one whole role. -/
def roleWrites (cr : ClusterRole) : List (String × List String) :=
  cr.rules.flatMap ruleResourceWrites

/-- The `Resources` overwrites one subject of a binding triggers: a matching
subject contributes the writes of the (successfully fetched) role. -/
def subjectWrites (getRole : String → Except String ClusterRole)
    (username roleName : String) (s : Subject) : List (String × List String) :=
  if s.kind == "User" && s.name == username then
    match getRole roleName with
    | .ok cr => roleWrites cr
    | .error _ => []
  else []

/-- The `Resources` overwrites made by one binding. -/
def bindingWrites (getRole : String → Except String ClusterRole)
    (username : String) (crb : ClusterRoleBinding) :
    List (String × List String) :=
  crb.subjects.flatMap (subjectWrites getRole username crb.roleRef.name)

/-- All `Resources` overwrites of a whole resolution, in processing order. -/
def allWrites (getRole : String → Except String ClusterRole)
    (username : String) (crbs : List ClusterRoleBinding) :
    List (String × List String) :=
  crbs.flatMap (bindingWrites getRole username)

end kubernetes

/-- Replay a sequence of map overwrites left to right. -/
def applyWrites (m : List (String × List String))
    (ws : List (String × List String)) : List (String × List String) :=
  ws.foldl (fun m kv => insertA m kv.1 kv.2) m

/-- The value of the last write to key `k` in the sequence `ws`, if any. -/
def lastWrite (ws : List (String × List String)) (k : String) :
    Option (List String) :=
  lookupA ws.reverse k

namespace business

/-- `ResourcePermissions` (the cache snapshot): resource type → verbs, plus
the time (seconds) the permissions were last checked. -/
structure ResourcePermissions where
  resourcePermissions : List (String × List String)
  lastChecked : Nat
deriving DecidableEq

/-- The `Status` of one SelfSubjectAccessReview result. -/
structure SARStatus where
  allowed : Bool
deriving DecidableEq

/-- One result of the authority's self-review primitive. -/
structure SelfSubjectAccessReview where
  status : SARStatus
deriving DecidableEq

/-- The single error kind of the caching layer. -/
structure AuthorityError where
  message : String
deriving DecidableEq

/-- The authority's self-review primitive
`GetSelfSubjectAccessReview(ctx, namespace, apiGroup, resource, verbs)`. -/
abbrev ReviewFn :=
  String → String → String → List String →
    Except String (List SelfSubjectAccessReview)

/-- The cache's backing map: principal → snapshot. -/
abbrev PermCache := List (String × ResourcePermissions)

/-- The freshness window: 5 minutes, in seconds. -/
def fiveMinutes : Nat := 5 * 60

/-- The live branch of `CheckUserPermissions` (part_000 lines 38-48): call
the self-review for `(resourceType, [verb])`, wrap a failure, treat an empty
result as not allowed, else take the first result's allowed flag. -/
def selfCheckResult (review : ReviewFn) (resourceType verb : String) :
    Except AuthorityError Bool :=
  match review "" "" resourceType [verb] with
  | .error e => .error ⟨"error checking permissions: " ++ e⟩
  | .ok [] => .ok false
  | .ok (r :: _) => .ok r.status.allowed

/-- `CheckUserPermissions` (part_000 lines 30-61).  Returns the result and
the cache as left behind (the code never writes it, so it is passed back
unchanged on every path). -/
def CheckUserPermissions (review : ReviewFn) (cache : PermCache) (now : Nat)
    (username resourceType verb : String) :
    Except AuthorityError Bool × PermCache :=
  match lookupA cache username with
  | none => (selfCheckResult review resourceType verb, cache)
  | some permissions =>
    if now - permissions.lastChecked > fiveMinutes then
      (selfCheckResult review resourceType verb, cache)
    else
      (.ok (match lookupA permissions.resourcePermissions resourceType with
            | some verbs => verbs.any (fun v => v == verb)
            | none => false),
       cache)

/-- `CacheUserPermissions` (part_000 lines 64-68): locked map overwrite. -/
def CacheUserPermissions (cache : PermCache) (username : String)
    (permissions : ResourcePermissions) : PermCache :=
  insertA cache username permissions

/-- `GetUserPermissions` (part_000 lines 71-75): locked map read; a missing
key yields Go's nil pointer, i.e. `none`. -/
def GetUserPermissions (cache : PermCache) (username : String) :
    Option ResourcePermissions :=
  lookupA cache username

/-- `ClearUserPermissions` (part_000 lines 78-82): locked map delete. -/
def ClearUserPermissions (cache : PermCache) (username : String) : PermCache :=
  eraseA cache username

end business

/-! ## Concrete instances used to exercise the theorems -/

/-- Snapshot with the global wildcard grant `Resources["*"] = ["*"]`. -/
def pStar : kubernetes.UserPermissions := ⟨[("*", ["*"])], []⟩

/-- Snapshot with `Resources["pods"] = ["get"]` and `APIGroups[""] = ["pods"]`. -/
def pPods : kubernetes.UserPermissions := ⟨[("pods", ["get"])], [("", ["pods"])]⟩

/-- Same `Resources` but `APIGroups[""] = ["services"]`. -/
def pPodsWrong : kubernetes.UserPermissions :=
  ⟨[("pods", ["get"])], [("", ["services"])]⟩

/-- Role granting `get` on `pods` (no API groups listed). -/
def roleGetPods : kubernetes.ClusterRole := ⟨[⟨[], ["pods"], ["get"]⟩]⟩

/-- Role granting `list` on `pods` (no API groups listed). -/
def roleListPods : kubernetes.ClusterRole := ⟨[⟨[], ["pods"], ["list"]⟩]⟩

/-- Role getter serving `roleGetPods` as "a" and `roleListPods` as "b". -/
def getRoleAB : String → Except String kubernetes.ClusterRole := fun n =>
  if n == "a" then .ok roleGetPods
  else if n == "b" then .ok roleListPods
  else .error "not found"

/-- Two bindings for alice: role "a" first, role "b" second. -/
def crbsAB : List kubernetes.ClusterRoleBinding :=
  [⟨[⟨"User", "alice"⟩], ⟨"a"⟩⟩, ⟨[⟨"User", "alice"⟩], ⟨"b"⟩⟩]

/-- The snapshot resolving `crbsAB` yields: last write wins. -/
def permsAB : kubernetes.UserPermissions := ⟨[("pods", ["list"])], []⟩

/-- Role with the wildcard API group: `{APIGroups: ["*"], Resources:
["pods"], Verbs: ["get"]}`. -/
def roleStarGroup : kubernetes.ClusterRole := ⟨[⟨["*"], ["pods"], ["get"]⟩]⟩

/-- Role getter always serving `roleStarGroup`. -/
def getRoleStarGroup : String → Except String kubernetes.ClusterRole :=
  fun _ => .ok roleStarGroup

/-- One binding for alice referencing `roleStarGroup`. -/
def crbsStarGroup : List kubernetes.ClusterRoleBinding :=
  [⟨[⟨"User", "alice"⟩], ⟨"r"⟩⟩]

/-- The snapshot resolving `crbsStarGroup` yields: the wildcard API group is
stored under the key `"core"`. -/
def permsStarGroup : kubernetes.UserPermissions :=
  ⟨[("pods", ["get"])], [("core", ["pods"])]⟩

/-- One binding for alice whose role fetch fails. -/
def crbsMissingRole : List kubernetes.ClusterRoleBinding :=
  [⟨[⟨"User", "alice"⟩], ⟨"missing"⟩⟩]

/-- Role getter that always fails. -/
def getRoleMissing : String → Except String kubernetes.ClusterRole :=
  fun _ => .error "not found"

/-- One binding whose subjects never match the user "alice". -/
def crbsNoMatch : List kubernetes.ClusterRoleBinding :=
  [⟨[⟨"Group", "admins"⟩, ⟨"ServiceAccount", "alice"⟩], ⟨"r"⟩⟩]

/-- Role getter that is never reached on the no-match path. -/
def getRoleUnused : String → Except String kubernetes.ClusterRole :=
  fun _ => .error "unreached"

/-- Self-review primitive that always fails. -/
def reviewBoom : business.ReviewFn := fun _ _ _ _ => .error "boom"

/-- Cache holding a snapshot for alice with `Resources["pods"] = ["*"]`,
last checked at time 0. -/
def cacheStarVerb : business.PermCache :=
  [("alice", ⟨[("pods", ["*"])], 0⟩)]

/-- Cache holding a snapshot for alice with `Resources["pods"] = ["get"]`,
last checked at time 0. -/
def cacheGetVerb : business.PermCache :=
  [("alice", ⟨[("pods", ["get"])], 0⟩)]

/-! ## Association-map laws -/

@[simp]
theorem oor_some {α : Type} (v : α) (b : Option α) : oor (some v) b = some v :=
  rfl

@[simp]
theorem oor_none {α : Type} (b : Option α) : oor none b = b :=
  rfl

theorem lookupA_insertA {α : Type} (m : List (String × α)) (k k' : String)
    (v : α) :
    lookupA (insertA m k v) k' = if k == k' then some v else lookupA m k' := by
  induction m with
  | nil => simp [insertA, lookupA]
  | cons kv rest ih =>
    obtain ⟨a, b⟩ := kv
    by_cases hak : a = k
    · subst hak
      simp only [insertA, beq_self_eq_true, if_true, lookupA]
      cases hkk : a == k' <;> simp [lookupA, hkk]
    · have hb : (a == k) = false := by simp [hak]
      simp only [insertA, hb, Bool.false_eq_true, if_false, lookupA, ih]
      cases hak' : a == k' <;> cases hkk' : k == k' <;> simp_all

theorem lookupA_eraseA_self {α : Type} (m : List (String × α)) (k : String) :
    lookupA (eraseA m k) k = none := by
  induction m with
  | nil => rfl
  | cons kv rest ih =>
    obtain ⟨a, b⟩ := kv
    simp only [eraseA, List.filter_cons] at ih ⊢
    cases hak : a == k <;> simp [lookupA, hak, ih]

theorem lookupA_append {α : Type} (xs ys : List (String × α)) (k : String) :
    lookupA (xs ++ ys) k = oor (lookupA xs k) (lookupA ys k) := by
  induction xs with
  | nil => rfl
  | cons kv rest ih =>
    obtain ⟨a, b⟩ := kv
    cases hak : a == k <;> simp [lookupA, hak, ih]

theorem applyWrites_append (m ws₁ ws₂ : List (String × List String)) :
    applyWrites m (ws₁ ++ ws₂) = applyWrites (applyWrites m ws₁) ws₂ := by
  simp [applyWrites, List.foldl_append]

theorem lookupA_applyWrites (m ws : List (String × List String)) (k : String) :
    lookupA (applyWrites m ws) k = oor (lastWrite ws k) (lookupA m k) := by
  induction ws generalizing m with
  | nil => rfl
  | cons kv ws ih =>
    obtain ⟨k₁, v₁⟩ := kv
    show lookupA (applyWrites (insertA m k₁ v₁) ws) k = _
    rw [ih, lookupA_insertA]
    unfold lastWrite
    rw [List.reverse_cons, lookupA_append]
    cases h : lookupA ws.reverse k <;> cases hk : k₁ == k <;>
      simp [oor, lookupA, hk, lastWrite, h]

/-! ## The resolver's Resources map as a sequence of overwrites -/

namespace kubernetes

theorem processResources_eq_applyWrites (m : List (String × List String))
    (rule : PolicyRule) :
    processResources m rule = applyWrites m (ruleResourceWrites rule) := by
  unfold processResources ruleResourceWrites applyWrites
  rw [List.foldl_map]
  congr 1
  funext m' r
  by_cases h : r = "*" <;> simp [h]

theorem foldRules_Resources (rules : List PolicyRule) (p : UserPermissions) :
    (rules.foldl processRule p).Resources =
      applyWrites p.Resources (rules.flatMap ruleResourceWrites) := by
  induction rules generalizing p with
  | nil => rfl
  | cons rule rules ih =>
    rw [List.foldl_cons, ih, List.flatMap_cons, applyWrites_append]
    have : (processRule p rule).Resources = processResources p.Resources rule :=
      rfl
    rw [this, processResources_eq_applyWrites]

theorem subjects_foldlM_Resources (getRole : String → Except String ClusterRole)
    (username roleName : String) (subjects : List Subject) :
    ∀ p q : UserPermissions,
      subjects.foldlM (processSubject getRole username roleName) p = .ok q →
      q.Resources = applyWrites p.Resources
        (subjects.flatMap (subjectWrites getRole username roleName)) := by
  induction subjects with
  | nil =>
    intro p q h
    cases h
    rfl
  | cons s rest ih =>
    intro p q h
    rw [List.foldlM_cons] at h
    cases hs : processSubject getRole username roleName p s with
    | error e => rw [hs] at h; cases h
    | ok p' =>
      rw [hs] at h
      have hrest : rest.foldlM (processSubject getRole username roleName) p'
          = .ok q := h
      have hp' : p'.Resources =
          applyWrites p.Resources (subjectWrites getRole username roleName s) := by
        unfold processSubject at hs
        by_cases hm : (s.kind == "User" && s.name == username) = true
        · rw [if_pos hm] at hs
          cases hg : getRole roleName with
          | error e => rw [hg] at hs; cases hs
          | ok cr =>
            rw [hg] at hs
            cases hs
            unfold subjectWrites roleWrites
            rw [if_pos hm, hg]
            exact foldRules_Resources _ _
        · rw [if_neg hm] at hs
          cases hs
          unfold subjectWrites
          rw [if_neg hm]
          rfl
      rw [ih p' q hrest, hp', List.flatMap_cons, applyWrites_append]

theorem bindings_foldlM_Resources (getRole : String → Except String ClusterRole)
    (username : String) (crbs : List ClusterRoleBinding) :
    ∀ p q : UserPermissions,
      crbs.foldlM (processBinding getRole username) p = .ok q →
      q.Resources = applyWrites p.Resources (allWrites getRole username crbs) := by
  induction crbs with
  | nil =>
    intro p q h
    cases h
    rfl
  | cons crb rest ih =>
    intro p q h
    rw [List.foldlM_cons] at h
    cases hb : processBinding getRole username p crb with
    | error e => rw [hb] at h; cases h
    | ok p' =>
      rw [hb] at h
      have hrest : rest.foldlM (processBinding getRole username) p' = .ok q := h
      have hp' : p'.Resources =
          applyWrites p.Resources (bindingWrites getRole username crb) :=
        subjects_foldlM_Resources getRole username crb.roleRef.name
          crb.subjects p p' hb
      rw [ih p' q hrest, hp']
      unfold allWrites
      rw [List.flatMap_cons, applyWrites_append]

/-! ## Error propagation and the no-match path of the resolver -/

theorem subjects_foldlM_error (getRole : String → Except String ClusterRole)
    (username roleName : String) (subjects : List Subject) (s : Subject)
    (e : String) (hs : s ∈ subjects) (hkind : s.kind = "User")
    (hname : s.name = username) (hfail : getRole roleName = .error e) :
    ∀ p : UserPermissions, ∃ err,
      subjects.foldlM (processSubject getRole username roleName) p
        = .error err := by
  induction subjects with
  | nil => cases hs
  | cons s₀ rest ih =>
    intro p
    rw [List.foldlM_cons]
    by_cases hm : (s₀.kind == "User" && s₀.name == username) = true
    · refine ⟨⟨"failed to get ClusterRole " ++ roleName ++ ": " ++ e⟩, ?_⟩
      have : processSubject getRole username roleName p s₀
          = .error ⟨"failed to get ClusterRole " ++ roleName ++ ": " ++ e⟩ := by
        unfold processSubject
        rw [if_pos hm, hfail]
      rw [this]
      rfl
    · have hs' : s ∈ rest := by
        cases hs with
        | head => exact absurd (by simp [hkind, hname]) hm
        | tail _ h => exact h
      have : processSubject getRole username roleName p s₀ = .ok p := by
        unfold processSubject
        rw [if_neg hm]
      rw [this]
      exact ih hs' p

theorem bindings_foldlM_error (getRole : String → Except String ClusterRole)
    (username : String) (crbs : List ClusterRoleBinding)
    (crb : ClusterRoleBinding) (s : Subject) (e : String)
    (hcrb : crb ∈ crbs) (hs : s ∈ crb.subjects) (hkind : s.kind = "User")
    (hname : s.name = username) (hfail : getRole crb.roleRef.name = .error e) :
    ∀ p : UserPermissions, ∃ err,
      crbs.foldlM (processBinding getRole username) p = .error err := by
  induction crbs with
  | nil => cases hcrb
  | cons c rest ih =>
    intro p
    rw [List.foldlM_cons]
    cases hcrb with
    | head =>
      obtain ⟨err, herr⟩ := subjects_foldlM_error getRole username
        crb.roleRef.name crb.subjects s e hs hkind hname hfail p
      refine ⟨err, ?_⟩
      have : processBinding getRole username p crb = .error err := herr
      rw [this]
      rfl
    | tail _ h =>
      cases hpb : processBinding getRole username p c with
      | error err => exact ⟨err, rfl⟩
      | ok p' => exact ih h p'

theorem subjects_foldlM_no_match (getRole : String → Except String ClusterRole)
    (username roleName : String) (subjects : List Subject)
    (h : ∀ s ∈ subjects, ¬(s.kind = "User" ∧ s.name = username)) :
    ∀ p : UserPermissions,
      subjects.foldlM (processSubject getRole username roleName) p = .ok p := by
  induction subjects with
  | nil => intro p; rfl
  | cons s₀ rest ih =>
    intro p
    rw [List.foldlM_cons]
    have hm : (s₀.kind == "User" && s₀.name == username) = false := by
      have := h s₀ (List.mem_cons_self s₀ rest)
      simp only [Bool.and_eq_false_iff, beq_eq_false_iff_ne, ne_eq]
      by_cases hk : s₀.kind = "User"
      · exact Or.inr (fun hn => this ⟨hk, hn⟩)
      · exact Or.inl hk
    have : processSubject getRole username roleName p s₀ = .ok p := by
      unfold processSubject
      rw [if_neg (by simp [hm])]
    rw [this]
    exact ih (fun s hsr => h s (List.mem_cons_of_mem s₀ hsr)) p

theorem bindings_foldlM_no_match (getRole : String → Except String ClusterRole)
    (username : String) (crbs : List ClusterRoleBinding)
    (h : ∀ crb ∈ crbs, ∀ s ∈ crb.subjects,
      ¬(s.kind = "User" ∧ s.name = username)) :
    ∀ p : UserPermissions,
      crbs.foldlM (processBinding getRole username) p = .ok p := by
  induction crbs with
  | nil => intro p; rfl
  | cons c rest ih =>
    intro p
    rw [List.foldlM_cons]
    have : processBinding getRole username p c = .ok p :=
      subjects_foldlM_no_match getRole username c.roleRef.name c.subjects
        (h c (List.mem_cons_self c rest)) p
    rw [this]
    exact ih (fun crb hc => h crb (List.mem_cons_of_mem c hc)) p

end kubernetes

/-! ## Small Bool and List helpers -/

theorem any_and_const (l : List String) (f : String → Bool) (b : Bool) :
    (l.any fun v => f v && b) = (l.any f && b) := by
  cases b <;> simp

theorem foldl_append_singleton {α : Type} (l : List α) :
    ∀ acc : List α, l.foldl (fun acc x => acc ++ [x]) acc = acc ++ l := by
  induction l with
  | nil => intro acc; simp
  | cons x l ih => intro acc; simp [List.foldl_cons, ih]

theorem any_beq_eq_contains (l : List String) (a : String) :
    (l.any fun v => v == a) = l.contains a := by
  induction l with
  | nil => rfl
  | cons x l ih =>
    simp only [List.any_cons, List.contains_cons, ih]
    cases hx : x == a <;> cases ha : a == x <;> simp_all [BEq.comm]

theorem any_verbMatches_of_mem (vs : List String) (verb : String)
    (h : verb ∈ vs ∨ "*" ∈ vs) :
    vs.any (kubernetes.verbMatches verb) = true := by
  rw [List.any_eq_true]
  cases h with
  | inl h => exact ⟨verb, h, by simp [kubernetes.verbMatches]⟩
  | inr h => exact ⟨"*", h, by simp [kubernetes.verbMatches]⟩

/-! ## The claims -/

/-- Claim C1: an entry `Resources["*"]` whose verb list contains the
requested verb or `"*"` makes `HasPermission` return true for every
apiGroup and resource, whatever `APIGroups` holds. -/
theorem hasPermission_global_wildcard (p : kubernetes.UserPermissions)
    (vs : List String) (apiGroup resource verb : String)
    (hstar : lookupA p.Resources "*" = some vs)
    (hverb : verb ∈ vs ∨ "*" ∈ vs) :
    kubernetes.HasPermission p apiGroup resource verb = true := by
  have hw : kubernetes.wildcardGrant p verb = true := by
    unfold kubernetes.wildcardGrant
    rw [hstar]
    exact any_verbMatches_of_mem vs verb hverb
  simp [kubernetes.HasPermission, hw]

/-- Claim C1, exercised: `Resources["*"] = ["*"]` grants anything. -/
theorem hasPermission_global_wildcard_witness :
    lookupA pStar.Resources "*" = some ["*"] ∧
      kubernetes.HasPermission pStar "apps" "deployments" "delete" = true :=
  ⟨rfl, hasPermission_global_wildcard pStar ["*"] "apps" "deployments" "delete"
    rfl (Or.inr (by simp))⟩

/-- Claim C2: without a matching global wildcard grant, when
`Resources[resource]` contains the verb or `"*"`, `HasPermission` returns
true exactly when `APIGroups` at the normalized apiGroup (`"core"` mapped to
`""`) contains the resource or `"*"`. -/
theorem hasPermission_specific_resource_iff (p : kubernetes.UserPermissions)
    (vs : List String) (apiGroup resource verb : String)
    (hnostar : ∀ ws, lookupA p.Resources "*" = some ws →
      verb ∉ ws ∧ "*" ∉ ws)
    (hres : lookupA p.Resources resource = some vs)
    (hverb : verb ∈ vs ∨ "*" ∈ vs) :
    kubernetes.HasPermission p apiGroup resource verb = true ↔
      ∃ rs, lookupA p.APIGroups (kubernetes.normalizeGroup apiGroup) = some rs ∧
        (resource ∈ rs ∨ "*" ∈ rs) := by
  have hw : kubernetes.wildcardGrant p verb = false := by
    unfold kubernetes.wildcardGrant
    cases hstar : lookupA p.Resources "*" with
    | none => rfl
    | some ws =>
      obtain ⟨h1, h2⟩ := hnostar ws hstar
      rw [List.any_eq_false]
      intro v hv hcon
      unfold kubernetes.verbMatches at hcon
      rcases (Bool.or_eq_true _ _).mp hcon with h | h
      · exact h2 (eq_of_beq h ▸ hv)
      · exact h1 (eq_of_beq h ▸ hv)
  simp only [kubernetes.HasPermission, hw, Bool.false_eq_true, if_false, hres]
  rw [any_and_const]
  rw [any_verbMatches_of_mem vs verb hverb]
  simp only [Bool.true_and]
  unfold kubernetes.groupAllows
  cases hg : lookupA p.APIGroups (kubernetes.normalizeGroup apiGroup) with
  | none => simp
  | some rs =>
    simp only [Option.some.injEq, exists_eq_left']
    constructor
    · intro hany
      obtain ⟨ar, har, hmatch⟩ := List.any_eq_true.mp hany
      rcases (Bool.or_eq_true _ _).mp hmatch with h | h
      · exact Or.inr (eq_of_beq h ▸ har)
      · exact Or.inl (eq_of_beq h ▸ har)
    · intro hmem
      rw [List.any_eq_true]
      rcases hmem with h | h
      · exact ⟨resource, h, by simp⟩
      · exact ⟨"*", h, by simp⟩

/-- Claim C2, exercised at the spec's example: `Resources["pods"]=["get"]`
with `APIGroups[""]=["pods"]` grants, with `APIGroups[""]=["services"]`
denies. -/
theorem hasPermission_specific_resource_iff_witness :
    kubernetes.HasPermission pPods "core" "pods" "get" = true ∧
    kubernetes.HasPermission pPodsWrong "core" "pods" "get" = false := by
  constructor
  · exact (hasPermission_specific_resource_iff pPods ["get"] "core" "pods"
      "get" (fun ws h => Option.noConfusion h) rfl (Or.inl (by simp))).mpr
      ⟨["pods"], rfl, Or.inl (by simp)⟩
  · decide

/-- Claim C5: the resolver's `Resources` map is a left-to-right sequence of
overwrites: the final entry for a resource is exactly the verb list of the
last processed rule writing that resource (no union). -/
theorem resolvePermissions_last_write_wins
    (crbs : List kubernetes.ClusterRoleBinding)
    (getRole : String → Except String kubernetes.ClusterRole)
    (username resource : String) (p : kubernetes.UserPermissions)
    (h : kubernetes.GetUserPermissions (.ok crbs) getRole username = .ok p) :
    lookupA p.Resources resource
      = lastWrite (kubernetes.allWrites getRole username crbs) resource := by
  unfold kubernetes.GetUserPermissions at h
  have hr := kubernetes.bindings_foldlM_Resources getRole username crbs
    ⟨[], []⟩ p h
  rw [hr, lookupA_applyWrites]
  cases lastWrite (kubernetes.allWrites getRole username crbs) resource <;> rfl

/-- Claim C5, exercised at the spec's example: folding role "a"
(`pods=[get]`) then role "b" (`pods=[list]`) leaves exactly `["list"]`. -/
theorem resolvePermissions_last_write_wins_witness :
    kubernetes.GetUserPermissions (.ok crbsAB) getRoleAB "alice"
        = .ok permsAB ∧
    lookupA permsAB.Resources "pods"
      = lastWrite (kubernetes.allWrites getRoleAB "alice" crbsAB) "pods" ∧
    lookupA permsAB.Resources "pods" = some ["list"] :=
  ⟨by decide,
   resolvePermissions_last_write_wins crbsAB getRoleAB "alice" "pods" permsAB
     (by decide),
   by decide⟩

/-- Claim C6 is refuted by the code: a rule with API group list `["*"]`
stores its resources under the `APIGroups` key `"core"`, but `HasPermission`
normalizes a requested `"core"` to `""` before the lookup, so the key
`"core"` is unreachable and the permission is denied for *every* requested
apiGroup — the wildcard grants nothing instead of everything. -/
theorem wildcard_apiGroup_never_matches :
    kubernetes.GetUserPermissions (.ok crbsStarGroup) getRoleStarGroup "alice"
        = .ok permsStarGroup ∧
    (∀ apiGroup : String,
      kubernetes.HasPermission permsStarGroup apiGroup "pods" "get"
        = false) := by
  refine ⟨by decide, ?_⟩
  intro apiGroup
  by_cases h : apiGroup = "core"
  · subst h; decide
  · simp [kubernetes.HasPermission, kubernetes.wildcardGrant, lookupA,
      kubernetes.verbMatches, kubernetes.groupAllows,
      kubernetes.normalizeGroup, permsStarGroup, h, Ne.symm h]

/-- Claim C7: any failing fetch of a role referenced by a binding matching
the principal makes the whole resolution fail with an error. -/
theorem resolvePermissions_fetch_failure_aborts
    (crbs : List kubernetes.ClusterRoleBinding)
    (getRole : String → Except String kubernetes.ClusterRole)
    (username : String) (crb : kubernetes.ClusterRoleBinding)
    (s : kubernetes.Subject) (e : String)
    (hcrb : crb ∈ crbs) (hs : s ∈ crb.subjects) (hkind : s.kind = "User")
    (hname : s.name = username)
    (hfail : getRole crb.roleRef.name = .error e) :
    ∃ err, kubernetes.GetUserPermissions (.ok crbs) getRole username
      = .error err := by
  unfold kubernetes.GetUserPermissions
  exact kubernetes.bindings_foldlM_error getRole username crbs crb s e hcrb hs
    hkind hname hfail ⟨[], []⟩

/-- Claim C7, exercised: one matching binding whose role getter fails. -/
theorem resolvePermissions_fetch_failure_aborts_witness :
    ∃ err, kubernetes.GetUserPermissions (.ok crbsMissingRole) getRoleMissing
      "alice" = .error err :=
  resolvePermissions_fetch_failure_aborts crbsMissingRole getRoleMissing
    "alice" ⟨[⟨"User", "alice"⟩], ⟨"missing"⟩⟩ ⟨"User", "alice"⟩ "not found"
    (by decide) (by decide) rfl rfl rfl

/-- Claim C8: the cache is an exact map: put-then-get returns the snapshot
put, delete-then-get returns absent (including for never-inserted keys). -/
theorem cache_put_get_delete (cache : business.PermCache) (username : String)
    (snapshot : business.ResourcePermissions) :
    business.GetUserPermissions
        (business.CacheUserPermissions cache username snapshot) username
      = some snapshot ∧
    business.GetUserPermissions
        (business.ClearUserPermissions cache username) username = none := by
  constructor
  · unfold business.GetUserPermissions business.CacheUserPermissions
    rw [lookupA_insertA]
    simp
  · exact lookupA_eraseA_self cache username

/-- Claim C9: `FilterResources` is an all-or-nothing gate: the empty list
without the `list` permission, the items unchanged with it. -/
theorem filterResources_all_or_nothing {α : Type}
    (p : kubernetes.UserPermissions) (apiGroup resourceType : String)
    (items : List α) :
    kubernetes.FilterResources p apiGroup resourceType items
      = if kubernetes.HasPermission p apiGroup resourceType "list" then items
        else [] := by
  unfold kubernetes.FilterResources
  cases h : kubernetes.HasPermission p apiGroup resourceType "list" with
  | false => simp [h]
  | true => simp [h, foldl_append_singleton]

/-- Claim C10: when no binding has a subject of kind "User" named after the
principal, resolution succeeds with both maps empty for every role getter
(the getter is never consulted), and the empty snapshot denies everything. -/
theorem resolvePermissions_no_match_empty
    (crbs : List kubernetes.ClusterRoleBinding) (username : String)
    (h : ∀ crb ∈ crbs, ∀ s ∈ crb.subjects,
      ¬(s.kind = "User" ∧ s.name = username)) :
    (∀ getRole, kubernetes.GetUserPermissions (.ok crbs) getRole username
      = .ok ⟨[], []⟩) ∧
    (∀ apiGroup resource verb,
      kubernetes.HasPermission ⟨[], []⟩ apiGroup resource verb = false) := by
  constructor
  · intro getRole
    unfold kubernetes.GetUserPermissions
    exact kubernetes.bindings_foldlM_no_match getRole username crbs h ⟨[], []⟩
  · intro apiGroup resource verb
    rfl

/-- Claim C10, exercised: a binding for a group and a service account does
not match the user "alice". -/
theorem resolvePermissions_no_match_empty_witness :
    kubernetes.GetUserPermissions (.ok crbsNoMatch) getRoleUnused "alice"
        = .ok ⟨[], []⟩ ∧
    kubernetes.HasPermission ⟨[], []⟩ "apps" "deployments" "list" = false := by
  have h := resolvePermissions_no_match_empty crbsNoMatch "alice" (by decide)
  exact ⟨h.1 getRoleUnused, h.2 "apps" "deployments" "list"⟩

/-- Claim C3: with a fresh cache entry, `CheckUserPermissions` answers from
the cached verb list by literal membership only: no wildcard expansion in
either direction. -/
theorem checkUserPermissions_fresh_exact (review : business.ReviewFn)
    (cache : business.PermCache) (now : Nat)
    (username resourceType verb : String)
    (perms : business.ResourcePermissions)
    (hentry : lookupA cache username = some perms)
    (hfresh : now - perms.lastChecked ≤ business.fiveMinutes) :
    (business.CheckUserPermissions review cache now username resourceType
        verb).fst =
      .ok (((lookupA perms.resourcePermissions resourceType).getD
        []).contains verb) ∧
    ((business.CheckUserPermissions review cache now username resourceType
        verb).fst = .ok true ↔
      ∃ vs, lookupA perms.resourcePermissions resourceType = some vs ∧
        verb ∈ vs) := by
  have hkey : business.CheckUserPermissions review cache now username
      resourceType verb
      = (.ok (((lookupA perms.resourcePermissions resourceType).getD
          []).contains verb), cache) := by
    unfold business.CheckUserPermissions
    rw [hentry]
    dsimp only
    rw [if_neg (Nat.not_lt.mpr hfresh)]
    cases hl : lookupA perms.resourcePermissions resourceType with
    | none => rfl
    | some vs =>
      dsimp only
      rw [any_beq_eq_contains]
      rfl
  constructor
  · rw [hkey]
  · rw [hkey]
    simp only [Except.ok.injEq]
    cases hl : lookupA perms.resourcePermissions resourceType with
    | none => simp [List.contains]
    | some vs =>
      simp only [Option.getD_some, Option.some.injEq, exists_eq_left']
      exact List.elem_iff

/-- Claim C3, exercised: a cached `"*"` verb does not satisfy `get`, and a
cached `get` does not satisfy a requested `"*"`. -/
theorem checkUserPermissions_fresh_exact_witness :
    (business.CheckUserPermissions reviewBoom cacheStarVerb 100 "alice" "pods"
      "get").fst = .ok false ∧
    (business.CheckUserPermissions reviewBoom cacheGetVerb 100 "alice" "pods"
      "*").fst = .ok false := by
  constructor
  · exact (checkUserPermissions_fresh_exact reviewBoom cacheStarVerb 100
      "alice" "pods" "get" ⟨[("pods", ["*"])], 0⟩ (by decide)
      (by decide)).1.trans (by decide)
  · exact (checkUserPermissions_fresh_exact reviewBoom cacheGetVerb 100
      "alice" "pods" "*" ⟨[("pods", ["get"])], 0⟩ (by decide)
      (by decide)).1.trans (by decide)

/-- Claim C4: with no cache entry or a stale one, `CheckUserPermissions`
consults only the self-review at `("", "", resourceType, [verb])`, maps a
failure to the wrapped error, an empty result list to false, a non-empty one
to its first allowed flag, and leaves the cache untouched. -/
theorem checkUserPermissions_stale_live (review : business.ReviewFn)
    (cache : business.PermCache) (now : Nat)
    (username resourceType verb : String)
    (hstale : lookupA cache username = none ∨
      ∃ perms, lookupA cache username = some perms ∧
        now - perms.lastChecked > business.fiveMinutes) :
    business.CheckUserPermissions review cache now username resourceType verb
        = (business.selfCheckResult review resourceType verb, cache) ∧
    (∀ review2 : business.ReviewFn,
      review2 "" "" resourceType [verb] = review "" "" resourceType [verb] →
      business.CheckUserPermissions review2 cache now username resourceType
        verb
        = business.CheckUserPermissions review cache now username resourceType
            verb) ∧
    (∀ e, review "" "" resourceType [verb] = .error e →
      (business.CheckUserPermissions review cache now username resourceType
        verb).fst = .error ⟨"error checking permissions: " ++ e⟩) ∧
    (review "" "" resourceType [verb] = .ok [] →
      (business.CheckUserPermissions review cache now username resourceType
        verb).fst = .ok false) ∧
    (∀ r rs, review "" "" resourceType [verb] = .ok (r :: rs) →
      (business.CheckUserPermissions review cache now username resourceType
        verb).fst = .ok r.status.allowed) := by
  have hbr : ∀ rv : business.ReviewFn,
      business.CheckUserPermissions rv cache now username resourceType verb
        = (business.selfCheckResult rv resourceType verb, cache) := by
    intro rv
    unfold business.CheckUserPermissions
    rcases hstale with hnone | ⟨perms, hsome, hgt⟩
    · rw [hnone]
    · rw [hsome]
      dsimp only
      rw [if_pos hgt]
  refine ⟨hbr review, ?_, ?_, ?_, ?_⟩
  · intro review2 heq
    rw [hbr review2, hbr review]
    unfold business.selfCheckResult
    rw [heq]
  · intro e he
    rw [hbr review]
    unfold business.selfCheckResult
    rw [he]
  · intro he
    rw [hbr review]
    unfold business.selfCheckResult
    rw [he]
  · intro r rs hr
    rw [hbr review]
    unfold business.selfCheckResult
    rw [hr]

/-- Claim C4, exercised: empty cache and a failing authority yield the
wrapped error, cache left empty. -/
theorem checkUserPermissions_stale_live_witness :
    business.CheckUserPermissions reviewBoom [] 0 "alice" "pods" "get"
      = (.error ⟨"error checking permissions: boom"⟩, []) :=
  ((checkUserPermissions_stale_live reviewBoom [] 0 "alice" "pods" "get"
    (Or.inl rfl)).1).trans (by decide)

end Spec2Proof
